import Mathlib

/-!
Verification development for the Wordle game engine (src/bot.py, src/bot2.py).

The embedding follows the source closely:
* words are lists of characters;
* `WordleGame.check_guess` (bot.py, lines 232-253) is the two-pass evaluator
  `checkGuess` below: pass 1 marks exact matches and consumes the matched
  secret letters (setting them to `none` in the pool), pass 2 walks the
  remaining positions and consumes the first unconsumed occurrence of the
  guessed letter from the pool (Python `secret.index(guess[i])` followed by
  `secret[...] = None`).
-/

namespace Wordle

/-- Per-position result of scoring one guessed letter:
green square (correct), yellow square (present), black square (absent). -/
inductive LetterResult
  | correct
  | present
  | absent
  deriving DecidableEq, Repr

/-- Replace the first occurrence of `some c` in the pool by `none`
(Python: `secret[secret.index(guess[i])] = None`); returns `none` when the
letter is not in the pool (Python: `guess[i] in secret` is false). -/
def consumeFirst (c : Char) : List (Option Char) → Option (List (Option Char))
  | [] => none
  | x :: xs =>
    if x = some c then some (none :: xs)
    else (consumeFirst c xs).map (fun ys => x :: ys)

/-- Pass 2 of bot.py `check_guess`: positions already marked correct are kept,
otherwise the guessed letter is looked up in (and consumed from) the pool. -/
def scorePresent : List Char → List Bool → List (Option Char) → List LetterResult
  | g :: gs, m :: ms, pool =>
    if m then LetterResult.correct :: scorePresent gs ms pool
    else
      match consumeFirst g pool with
      | some pool2 => LetterResult.present :: scorePresent gs ms pool2
      | none => LetterResult.absent :: scorePresent gs ms pool
  | _, _, _ => []

/-- Pass 1 of bot.py `check_guess`, the per-position exact-match marks. -/
def exactMarks (guess secret : List Char) : List Bool :=
  List.zipWith (fun g s => decide (g = s)) guess secret

/-- Pass 1 of bot.py `check_guess`, the letter pool left for pass 2:
secret letters matched exactly are consumed (`secret[i] = None`). -/
def exactPool (guess secret : List Char) : List (Option Char) :=
  List.zipWith (fun g s => if g = s then none else some s) guess secret

/-- bot.py `WordleGame.check_guess`, the pure per-letter result. -/
def checkGuess (guess secret : List Char) : List LetterResult :=
  scorePresent guess (exactMarks guess secret) (exactPool guess secret)

/-- Number of positions where the guess has letter `c` and the result is
Correct or Present (i.e. not Absent). -/
def hitCount (c : Char) : List Char → List LetterResult → Nat
  | g :: gs, r :: rs =>
    hitCount c gs rs + (if g = c ∧ r ≠ LetterResult.absent then 1 else 0)
  | _, _ => 0

/-- Number of occurrences of letter `c` in a word. -/
def letterCount (c : Char) : List Char → Nat
  | [] => 0
  | x :: xs => letterCount c xs + (if x = c then 1 else 0)

/-- Number of unconsumed occurrences of letter `c` in the pool. -/
def poolCount (c : Char) : List (Option Char) → Nat
  | [] => 0
  | x :: xs => poolCount c xs + (if x = some c then 1 else 0)

/-- Number of positions where the guess has letter `c` and the exact-match
mark is set. -/
def markHit (c : Char) : List Char → List Bool → Nat
  | g :: gs, m :: ms => markHit c gs ms + (if g = c ∧ m = true then 1 else 0)
  | _, _ => 0

theorem poolCount_consumeFirst (c c2 : Char) :
    ∀ (pool pool2 : List (Option Char)), consumeFirst c pool = some pool2 →
      poolCount c2 pool = poolCount c2 pool2 + (if c2 = c then 1 else 0) := by
  intro pool
  induction pool with
  | nil => intro pool2 h; simp [consumeFirst] at h
  | cons x xs ih =>
    intro pool2 h
    by_cases hx : x = some c
    · rw [consumeFirst, if_pos hx] at h
      cases h
      subst hx
      by_cases hc : c2 = c
      · subst hc; simp [poolCount]
      · have hne : ¬ (some c = some c2) := by
          simp only [Option.some.injEq]
          exact fun h2 => hc h2.symm
        simp [poolCount, hc, hne]
    · rw [consumeFirst, if_neg hx] at h
      cases hys : consumeFirst c xs with
      | none => rw [hys] at h; exact absurd h (by simp)
      | some ys =>
        rw [hys] at h
        replace h : some (x :: ys) = some pool2 := h
        cases h
        have := ih ys hys
        simp only [poolCount]
        omega

theorem hitCount_scorePresent_le (c : Char) :
    ∀ (gs : List Char) (ms : List Bool) (pool : List (Option Char)),
      hitCount c gs (scorePresent gs ms pool) ≤ markHit c gs ms + poolCount c pool := by
  intro gs
  induction gs with
  | nil => intro ms pool; simp [scorePresent, hitCount]
  | cons g gs ih =>
    intro ms pool
    cases ms with
    | nil => simp [scorePresent, hitCount, markHit]
    | cons m ms =>
      cases m with
      | true =>
        rw [scorePresent, if_pos rfl]
        have := ih ms pool
        by_cases hg : g = c
        · simp only [hitCount, markHit, hg]
          simp
          omega
        · simp [hitCount, markHit, hg]
          omega
      | false =>
        rw [scorePresent, if_neg (by simp)]
        cases hcf : consumeFirst g pool with
        | some pool2 =>
          have h1 := ih ms pool2
          have h2 := poolCount_consumeFirst g c pool pool2 hcf
          by_cases hg : g = c
          · subst hg
            simp only [hitCount, markHit] at *
            simp at h2 ⊢
            omega
          · have hg2 : ¬ (c = g) := fun h => hg h.symm
            simp only [hitCount, markHit] at *
            simp [hg, hg2] at h2 ⊢
            omega
        | none =>
          have := ih ms pool
          simp only [hitCount, markHit] at *
          simp
          omega

theorem marks_pool_le (c : Char) :
    ∀ (gs ss : List Char),
      markHit c gs (exactMarks gs ss) + poolCount c (exactPool gs ss)
        ≤ letterCount c ss := by
  intro gs
  induction gs with
  | nil => intro ss; simp [exactMarks, exactPool, poolCount, markHit, letterCount]
  | cons g gs ih =>
    intro ss
    cases ss with
    | nil => simp [exactMarks, exactPool, poolCount, markHit, letterCount]
    | cons s ss =>
      have ihs := ih ss
      simp only [exactMarks, exactPool, List.zipWith_cons_cons] at ihs ⊢
      by_cases hgs : g = s
      · subst hgs
        by_cases hgc : g = c
        · subst hgc
          simp only [markHit, poolCount, letterCount] at *
          simp
          omega
        · simp only [markHit, poolCount, letterCount] at *
          simp [hgc]
          omega
      · by_cases hsc : s = c
        · subst hsc
          simp only [markHit, poolCount, letterCount] at *
          simp [hgs]
          omega
        · have hne : ¬ (some s = some c) := by
            simp only [Option.some.injEq]; exact hsc
          simp only [markHit, poolCount, letterCount] at *
          simp [hgs, hsc, hne]
          omega

/-- C1: for every 5-letter guess and secret, the two-pass evaluator marks, for
each letter, at most as many Correct-or-Present positions carrying that letter
as the letter occurs in the secret. -/
theorem checkGuess_letter_bound (guess secret : List Char)
    (_h1 : guess.length = 5) (_h2 : secret.length = 5) (c : Char) :
    hitCount c guess (checkGuess guess secret) ≤ letterCount c secret :=
  le_trans (hitCount_scorePresent_le c guess (exactMarks guess secret) (exactPool guess secret))
    (marks_pool_le c guess secret)

/-- Witness for C1 at secret "apple", guess "eppyy": the bound holds for
letter p, and concretely both p positions score Correct with no extra
Present mark for p. -/
theorem checkGuess_letter_bound_witness :
    (['e','p','p','y','y'] : List Char).length = 5 ∧
    (['a','p','p','l','e'] : List Char).length = 5 ∧
    hitCount 'p' ['e','p','p','y','y']
        (checkGuess ['e','p','p','y','y'] ['a','p','p','l','e'])
      ≤ letterCount 'p' ['a','p','p','l','e'] ∧
    checkGuess ['e','p','p','y','y'] ['a','p','p','l','e'] =
      [LetterResult.present, LetterResult.correct, LetterResult.correct,
       LetterResult.absent, LetterResult.absent] :=
  ⟨by decide, by decide,
   checkGuess_letter_bound ['e','p','p','y','y'] ['a','p','p','l','e']
     (by decide) (by decide) 'p',
   by decide⟩

/-! ## Game-session state (bot.py `WordleGame`, lines 218-269) -/

/-- Attempt cap (bot.py `MAX_ATTEMPTS`). -/
def MAX_ATTEMPTS : Int := 6

/-- Hint cap (bot.py `MAX_HINTS`). -/
def MAX_HINTS : Nat := 3

/-- bot.py `WordleGame` mutable state (the wall-clock `start_time` is kept
outside the model; durations enter as explicit parameters where needed). -/
structure WordleGame where
  secret_word : List Char
  attempts : List (List Char × List LetterResult)
  remaining : Int
  hints_used : Nat
  correct_positions : List Bool
  hinted_letters : List Char
  deriving DecidableEq, Repr

/-- bot.py `WordleGame.__init__` with the drawn secret word. -/
def WordleGame.new (secret : List Char) : WordleGame :=
  { secret_word := secret
    attempts := []
    remaining := MAX_ATTEMPTS
    hints_used := 0
    correct_positions := [false, false, false, false, false]
    hinted_letters := [] }

/-- Pass 1 side effect of bot.py `check_guess` on `correct_positions`:
`for i in range(5): if guess[i] == secret[i]: self.correct_positions[i] = True`.
Distinct out-of-range defaults keep out-of-range positions unequal. -/
def updateCorrect (cp : List Bool) (guess secret : List Char) : List Bool :=
  (List.range 5).map (fun i =>
    cp.getD i false || decide (guess.getD i '*' = secret.getD i '%'))

/-- bot.py `WordleGame.check_guess`, full state effect: marks correct
positions, appends the attempt, decrements `remaining`, returns the result. -/
def WordleGame.check_guess (g : WordleGame) (guess : List Char) :
    WordleGame × List LetterResult :=
  let result := checkGuess guess g.secret_word
  ({ g with
      correct_positions := updateCorrect g.correct_positions guess g.secret_word
      attempts := g.attempts ++ [(guess, result)]
      remaining := g.remaining - 1 }, result)

/-- Python set add on the model of `hinted_letters`. -/
def addLetter (c : Char) (l : List Char) : List Char :=
  if c ∈ l then l else c :: l

/-- bot.py `add_hint` eligible positions:
`available = [i for i, c in enumerate(self.correct_positions) if not c]`. -/
def availablePositions (g : WordleGame) : List Nat :=
  (g.correct_positions.enum.filter (fun p => !p.2)).map Prod.fst

/-- bot.py `WordleGame.add_hint`; `choice` stands for `random.choice`. -/
def WordleGame.add_hint (choice : List Nat → Nat) (g : WordleGame) :
    WordleGame × Bool :=
  if g.hints_used ≥ MAX_HINTS then (g, false)
  else if availablePositions g = [] then (g, false)
  else
    let pos := choice (availablePositions g)
    ({ g with
        hinted_letters := addLetter (g.secret_word.getD pos ' ') g.hinted_letters
        hints_used := g.hints_used + 1 }, true)

/-- Session status after a guess is processed. -/
inductive GameStatus
  | active
  | won
  | lost
  deriving DecidableEq, Repr

/-- bot.py `WordleCog.handle_process_guess` (non-daily path): input validation
(`len(guess) != 5 or not guess.isalpha()` rejects with no state change),
`check_guess` on the lowered guess, then the end decision: win when the guess
equals the secret, loss when `remaining` hits 0 without a match. -/
def process_guess (g : WordleGame) (guess : List Char) :
    Option (WordleGame × GameStatus) :=
  if guess.length = 5 ∧ guess.all Char.isAlpha = true then
    let gl := guess.map Char.toLower
    let gr := g.check_guess gl
    some (gr.1,
      if gl = g.secret_word then GameStatus.won
      else if gr.1.remaining = 0 then GameStatus.lost
      else GameStatus.active)
  else none

/-- C3: a valid (5-letter, alphabetic, lowercase) guess appends exactly one
attempt, decrements the remaining-attempt counter by one, wins iff the guess
equals the secret, loses iff the counter reaches 0 without a match, and stays
active otherwise. -/
theorem process_guess_spec (g : WordleGame) (guess : List Char)
    (h1 : guess.length = 5) (h2 : guess.all Char.isAlpha = true)
    (h3 : guess.map Char.toLower = guess) :
    ∃ g2 st, process_guess g guess = some (g2, st) ∧
      g2.attempts = g.attempts ++ [(guess, checkGuess guess g.secret_word)] ∧
      g2.remaining = g.remaining - 1 ∧
      (st = GameStatus.won ↔ guess = g.secret_word) ∧
      (st = GameStatus.lost ↔ (guess ≠ g.secret_word ∧ g.remaining - 1 = 0)) ∧
      (st = GameStatus.active ↔ (guess ≠ g.secret_word ∧ g.remaining - 1 ≠ 0)) := by
  rw [process_guess, if_pos (And.intro h1 h2)]
  simp only [h3]
  refine ⟨_, _, rfl, by simp [WordleGame.check_guess], by simp [WordleGame.check_guess], ?_, ?_, ?_⟩
  · by_cases hw : guess = g.secret_word <;>
      by_cases hr : g.remaining - 1 = 0 <;>
      simp [WordleGame.check_guess, hw, hr]
  · by_cases hw : guess = g.secret_word <;>
      by_cases hr : g.remaining - 1 = 0 <;>
      simp [WordleGame.check_guess, hw, hr]
  · by_cases hw : guess = g.secret_word <;>
      by_cases hr : g.remaining - 1 = 0 <;>
      simp [WordleGame.check_guess, hw, hr]

/-- Fresh game on the secret "apple", for concrete scenarios. -/
def appleGame : WordleGame := WordleGame.new ['a','p','p','l','e']

/-- Witness for C3: the spec theorem at the fresh "apple" game with guess
"zzzzz"; concretely the scenario 6 → 5 (Active, all Absent) → 4 (Won). -/
theorem process_guess_spec_witness :
    (∃ g2 st, process_guess appleGame ['z','z','z','z','z'] = some (g2, st) ∧
      g2.attempts = appleGame.attempts ++
        [(['z','z','z','z','z'], checkGuess ['z','z','z','z','z'] appleGame.secret_word)] ∧
      g2.remaining = appleGame.remaining - 1 ∧
      (st = GameStatus.won ↔ ['z','z','z','z','z'] = appleGame.secret_word) ∧
      (st = GameStatus.lost ↔ (['z','z','z','z','z'] ≠ appleGame.secret_word ∧
        appleGame.remaining - 1 = 0)) ∧
      (st = GameStatus.active ↔ (['z','z','z','z','z'] ≠ appleGame.secret_word ∧
        appleGame.remaining - 1 ≠ 0))) ∧
    (process_guess appleGame ['z','z','z','z','z']).map
      (fun p => (p.1.remaining, p.2)) = some (5, GameStatus.active) ∧
    ((process_guess appleGame ['z','z','z','z','z']).bind
        (fun p => process_guess p.1 ['a','p','p','l','e'])).map
      (fun p => (p.1.remaining, p.2)) = some (4, GameStatus.won) :=
  ⟨process_guess_spec appleGame ['z','z','z','z','z'] (by decide) (by decide) (by decide),
   by decide, by decide⟩

/-- C2 (amended): a hint succeeds iff fewer than 3 hints were used and some
position is not yet marked correct (whether or not its letter was already
hinted); on success the hint counter increases by one and the chosen
position's letter is added to the hinted set; on failure — in particular
always when 3 hints were already used — the state is unchanged. -/
theorem add_hint_spec (g : WordleGame) (choice : List Nat → Nat) :
    ((g.add_hint choice).2 = true ↔
      (g.hints_used < MAX_HINTS ∧ availablePositions g ≠ [])) ∧
    (g.hints_used < MAX_HINTS → availablePositions g ≠ [] →
      (g.add_hint choice).1 = { g with
        hinted_letters :=
          addLetter (g.secret_word.getD (choice (availablePositions g)) ' ')
            g.hinted_letters
        hints_used := g.hints_used + 1 }) ∧
    (¬ (g.hints_used < MAX_HINTS ∧ availablePositions g ≠ []) →
      (g.add_hint choice).1 = g) := by
  by_cases hcap : g.hints_used ≥ MAX_HINTS
  · have hlt : ¬ g.hints_used < MAX_HINTS := not_lt.mpr hcap
    refine ⟨?_, ?_, ?_⟩
    · simp [WordleGame.add_hint, hcap, hlt]
    · intro h; exact absurd h hlt
    · intro _; simp [WordleGame.add_hint, hcap]
  · have hlt : g.hints_used < MAX_HINTS := lt_of_not_ge hcap
    by_cases hav : availablePositions g = []
    · refine ⟨?_, ?_, ?_⟩
      · simp [WordleGame.add_hint, hcap, hav, hlt]
      · intro _ h; exact absurd hav h
      · intro _; simp [WordleGame.add_hint, hcap, hav]
    · refine ⟨?_, ?_, ?_⟩
      · simp [WordleGame.add_hint, hcap, hav, hlt]
      · intro _ _; simp [WordleGame.add_hint, hcap, hav]
      · intro h; exact absurd ⟨hlt, hav⟩ h

/-- Witness for C2's theorem: on the fresh "apple" game a hint (choice picks
the first eligible position, 0) succeeds and reveals the letter a. -/
theorem add_hint_spec_witness :
    (appleGame.add_hint (fun l => l.headD 0)).1 =
      { appleGame with hinted_letters := ['a'], hints_used := 1 } ∧
    (appleGame.add_hint (fun l => l.headD 0)).2 = true := by
  have h := add_hint_spec appleGame (fun l => l.headD 0)
  refine ⟨?_, ?_⟩
  · rw [h.2.1 (by decide) (by decide)]
    decide
  · exact h.1.mpr ⟨by decide, by decide⟩

/-- Game state where every position not yet correct carries a letter that was
already hinted: position 4 is not correct, but its letter e is in
`hinted_letters`. -/
def trickGame : WordleGame :=
  { secret_word := ['a','b','c','d','e']
    attempts := []
    remaining := 6
    hints_used := 0
    correct_positions := [true, true, true, true, false]
    hinted_letters := ['e'] }

/-- Counterexample to C2 as stated: with fewer than 3 hints used but no
position that is both non-correct and un-hinted, the claim says the request
fails, yet bot.py `add_hint` succeeds — its eligibility filter never consults
`hinted_letters`. -/
theorem add_hint_claim_counterexample :
    (trickGame.add_hint (fun l => l.headD 0)).2 = true ∧
    trickGame.hints_used < MAX_HINTS ∧
    (∀ i, i < 5 → (trickGame.correct_positions.getD i false = true ∨
      trickGame.secret_word.getD i ' ' ∈ trickGame.hinted_letters)) := by decide

/-! ## Correct-position monotonicity (C10) -/

/-- One player action on a session: a guess (through `handle_process_guess`)
or a hint request. -/
inductive SessionOp
  | guess (w : List Char)
  | hint (choice : List Nat → Nat)

/-- Effect of one action on the session state; an invalid guess leaves the
state unchanged. -/
def stepOp (g : WordleGame) : SessionOp → WordleGame
  | SessionOp.guess w =>
    match process_guess g w with
    | some p => p.1
    | none => g
  | SessionOp.hint choice => (g.add_hint choice).1

/-- Effect of a whole sequence of actions. -/
def applyOps (g : WordleGame) : List SessionOp → WordleGame
  | [] => g
  | op :: ops => applyOps (stepOp g op) ops

theorem getD_map_range {α : Type} (f : Nat → α) (d : α) (i n : Nat) (h : i < n) :
    ((List.range n).map f).getD i d = f i := by
  rw [List.getD_eq_getElem?_getD, List.getElem?_map, List.getElem?_range h]
  rfl

theorem updateCorrect_mono (cp : List Bool) (guess secret : List Char) (i : Nat)
    (h5 : i < 5) (h : cp.getD i false = true) :
    (updateCorrect cp guess secret).getD i false = true := by
  rw [updateCorrect, getD_map_range _ _ _ _ h5, h]
  rfl

theorem stepOp_correct_mono (g : WordleGame) (op : SessionOp) (i : Nat)
    (h5 : i < 5) (h : g.correct_positions.getD i false = true) :
    (stepOp g op).correct_positions.getD i false = true := by
  cases op with
  | guess w =>
    rw [stepOp]
    cases hp : process_guess g w with
    | none => exact h
    | some p =>
      rw [process_guess] at hp
      by_cases hv : w.length = 5 ∧ w.all Char.isAlpha = true
      · rw [if_pos hv] at hp
        simp only [Option.some.injEq] at hp
        subst hp
        simpa [WordleGame.check_guess] using
          updateCorrect_mono g.correct_positions (w.map Char.toLower) g.secret_word i h5 h
      · rw [if_neg hv] at hp
        exact absurd hp (by simp)
  | hint choice =>
    rw [stepOp, WordleGame.add_hint]
    by_cases hcap : g.hints_used ≥ MAX_HINTS
    · rw [if_pos hcap]; exact h
    · rw [if_neg hcap]
      by_cases hav : availablePositions g = []
      · rw [if_pos hav]; exact h
      · rw [if_neg hav]; exact h

/-- C10: once a position is marked correct, it stays correct across any
further sequence of guesses and hints in the session. -/
theorem correct_positions_mono (g : WordleGame) (ops : List SessionOp) (i : Nat)
    (h5 : i < 5) (h : g.correct_positions.getD i false = true) :
    (applyOps g ops).correct_positions.getD i false = true := by
  induction ops generalizing g with
  | nil => exact h
  | cons op ops ih =>
    rw [applyOps]
    exact ih (stepOp g op) (stepOp_correct_mono g op i h5 h)

/-- Witness for C10: in a game where position 1 is already correct, it is
still correct after a hint followed by a (wrong) guess. -/
theorem correct_positions_mono_witness :
    ({ appleGame with correct_positions := [false, true, false, false, false]
        : WordleGame }.correct_positions.getD 1 false = true) ∧
    (applyOps { appleGame with correct_positions := [false, true, false, false, false] }
        [SessionOp.hint (fun l => l.headD 0), SessionOp.guess ['z','z','z','z','z']]
      ).correct_positions.getD 1 false = true :=
  ⟨by decide,
   correct_positions_mono
     { appleGame with correct_positions := [false, true, false, false, false] }
     [SessionOp.hint (fun l => l.headD 0), SessionOp.guess ['z','z','z','z','z']]
     1 (by decide) (by decide)⟩

/-! ## History store (bot.py `GameHistory`, lines 115-216) -/

/-- One stored game record; only the fields the claims touch are modelled
(the random 8-character id, the word and the per-guess log do not affect
partitioning or ranking). Timestamps are abstract numbers ordered like the
ISO strings of the source. -/
structure GameEntry where
  won : Bool
  attempts : Nat
  timestamp : Nat
  anonymous : Bool
  deriving DecidableEq, Repr

/-- Python `dict.setdefault(key, []).insert(0, e)`: prepend to the list at a
key, creating the key (at the end, as Python dicts append new keys) if it is
absent. -/
def insertFront {α : Type} (k : String) (e : α) :
    List (String × List α) → List (String × List α)
  | [] => [(k, [e])]
  | (k2, v) :: rest =>
    if k2 = k then (k2, e :: v) :: rest else (k2, v) :: insertFront k e rest

/-- Python `dict.get(key)`. -/
def lookupKey {α : Type} (k : String) : List (String × α) → Option α
  | [] => none
  | (k2, v) :: rest => if k2 = k then some v else lookupKey k rest

/-- The user partition of one scope: user id → newest-first game list. -/
abbrev UserMap := List (String × List GameEntry)

/-- bot.py `GameHistory.data`: per-guild user partitions, the global user
partition, and the anonymous-games partition keyed by anonymous persona id. -/
structure HistoryData where
  guilds : List (String × UserMap)
  globalUsers : UserMap
  anonGames : List (String × List GameEntry)
  deriving DecidableEq, Repr

/-- bot.py `add_game` non-anonymous branch on the guild partition:
`data["guilds"].setdefault(guild, {"users": {}})["users"].setdefault(user, []).insert(0, e)`. -/
def addGuildGame (gid uid : String) (e : GameEntry) :
    List (String × UserMap) → List (String × UserMap)
  | [] => [(gid, [(uid, [e])])]
  | (k, m) :: rest =>
    if k = gid then (k, insertFront uid e m) :: rest
    else (k, m) :: addGuildGame gid uid e rest

/-- bot.py `GameHistory.add_game`: the stored entry carries the player's
current anonymous flag; with anonymous mode on, it goes (newest first) only
into the anonymous partition under the persona id, otherwise into both the
originating guild partition and the global partition under the real id. -/
def add_game (gid uid anonId : String) (settingsAnon : Bool) (e : GameEntry)
    (d : HistoryData) : HistoryData :=
  let entry := { e with anonymous := settingsAnon }
  if settingsAnon then
    { d with anonGames := insertFront anonId entry d.anonGames }
  else
    { d with
        guilds := addGuildGame gid uid entry d.guilds
        globalUsers := insertFront uid entry d.globalUsers }

/-- One aggregated leaderboard row of bot.py `get_leaderboard` (the
`last_games` display field is not modelled). -/
structure LBEntry where
  user_id : String
  wins : Nat
  total : Nat
  avg_attempts : ℚ
  win_rate : ℚ
  deriving DecidableEq, Repr

/-- Placeholder row used only as the default of list indexing. -/
def lbDefault : LBEntry :=
  { user_id := "", wins := 0, total := 0, avg_attempts := 0, win_rate := 0 }

/-- The aggregation loop of bot.py `get_leaderboard`: anonymous-flagged games
are dropped, users with no remaining games are skipped. -/
def lbEntries : UserMap → List LBEntry
  | [] => []
  | (uid, games) :: rest =>
    let valid := games.filter (fun g => !g.anonymous)
    if valid.length = 0 then lbEntries rest
    else
      { user_id := uid
        wins := valid.countP (fun g => g.won)
        total := valid.length
        avg_attempts := mkRat ((valid.map (fun g => g.attempts)).sum) valid.length
        win_rate := mkRat (valid.countP (fun g => g.won)) valid.length } :: lbEntries rest

/-- Sort order of bot.py `get_leaderboard`:
`sorted(..., key=lambda x: (-x["wins"], -x["total"]))`. -/
def lbRel (a b : LBEntry) : Prop :=
  b.wins < a.wins ∨ (a.wins = b.wins ∧ b.total ≤ a.total)

instance : DecidableRel lbRel := fun a b => by
  unfold lbRel; infer_instance

instance : IsTotal LBEntry lbRel :=
  ⟨fun a b => by unfold lbRel; omega⟩

instance : IsTrans LBEntry lbRel :=
  ⟨fun a b c hab hbc => by unfold lbRel at *; omega⟩

/-- bot.py `GameHistory.get_leaderboard`: aggregate the chosen scope's user
partition and sort by descending wins, then descending total games. -/
def get_leaderboard (d : HistoryData) (scope : String) (guildId : String) :
    List LBEntry :=
  let source : UserMap :=
    if scope = "global" then d.globalUsers
    else (lookupKey guildId d.guilds).getD []
  List.insertionSort lbRel (lbEntries source)

theorem getD_of_lt {α : Type} (l : List α) (n : Nat) (d : α) (h : n < l.length) :
    l.getD n d = l.get ⟨n, h⟩ := by
  rw [List.getD_eq_getElem?_getD, List.getElem?_eq_getElem h]
  rfl

theorem lookup_insertFront {α : Type} (k : String) (e : α) :
    ∀ m : List (String × List α),
      lookupKey k (insertFront k e m) = some (e :: (lookupKey k m).getD []) := by
  intro m
  induction m with
  | nil => simp [insertFront, lookupKey]
  | cons p rest ih =>
    obtain ⟨k2, v⟩ := p
    by_cases hk : k2 = k
    · subst hk; simp [insertFront, lookupKey]
    · simp [insertFront, lookupKey, hk, ih]

theorem lookup_addGuildGame (gid uid : String) (e : GameEntry) :
    ∀ gs : List (String × UserMap),
      lookupKey gid (addGuildGame gid uid e gs) =
        some (insertFront uid e ((lookupKey gid gs).getD [])) := by
  intro gs
  induction gs with
  | nil => simp [addGuildGame, lookupKey, insertFront]
  | cons p rest ih =>
    obtain ⟨k, m⟩ := p
    by_cases hk : k = gid
    · subst hk; simp [addGuildGame, lookupKey]
    · simp [addGuildGame, lookupKey, hk, ih]

/-- C4: a game recorded with anonymous mode on lands, newest first, only in
the anonymous partition under the persona id — the guild and global real
partitions are untouched and every leaderboard is unchanged; a game recorded
with anonymous mode off lands in both the originating guild partition and the
global partition, and the anonymous partition is untouched. -/
theorem add_game_scoping (d : HistoryData) (gid uid anonId : String) (e : GameEntry) :
    ((add_game gid uid anonId true e d).guilds = d.guilds ∧
     (add_game gid uid anonId true e d).globalUsers = d.globalUsers ∧
     (add_game gid uid anonId true e d).anonGames =
       insertFront anonId { e with anonymous := true } d.anonGames ∧
     ∀ scope gq, get_leaderboard (add_game gid uid anonId true e d) scope gq =
       get_leaderboard d scope gq) ∧
    ((add_game gid uid anonId false e d).anonGames = d.anonGames ∧
     lookupKey uid (add_game gid uid anonId false e d).globalUsers =
       some ({ e with anonymous := false } :: (lookupKey uid d.globalUsers).getD []) ∧
     lookupKey gid (add_game gid uid anonId false e d).guilds =
       some (insertFront uid { e with anonymous := false }
         ((lookupKey gid d.guilds).getD []))) := by
  refine ⟨⟨rfl, rfl, rfl, ?_⟩, rfl, ?_, ?_⟩
  · intro scope gq
    rfl
  · exact lookup_insertFront uid { e with anonymous := false } d.globalUsers
  · exact lookup_addGuildGame gid uid { e with anonymous := false } d.guilds

/-- C8 (amended, bot.py): any two adjacent rows of the returned leaderboard
satisfy the sort order — the earlier row has strictly more wins, or equal
wins and at least as many total games. -/
theorem get_leaderboard_sorted (d : HistoryData) (scope gid : String) (i : Nat)
    (h : i + 1 < (get_leaderboard d scope gid).length) :
    ((get_leaderboard d scope gid).getD (i+1) lbDefault).wins <
      ((get_leaderboard d scope gid).getD i lbDefault).wins ∨
    (((get_leaderboard d scope gid).getD i lbDefault).wins =
       ((get_leaderboard d scope gid).getD (i+1) lbDefault).wins ∧
     ((get_leaderboard d scope gid).getD (i+1) lbDefault).total ≤
       ((get_leaderboard d scope gid).getD i lbDefault).total) := by
  have hs : List.Sorted lbRel (get_leaderboard d scope gid) := by
    rw [get_leaderboard]
    exact List.sorted_insertionSort lbRel _
  have hi : i < (get_leaderboard d scope gid).length := Nat.lt_of_succ_lt h
  rw [getD_of_lt _ _ _ h, getD_of_lt _ _ _ hi]
  exact hs.rel_get_of_lt (Fin.mk_lt_mk.mpr (Nat.lt_succ_self i))

/-- Example records for leaderboard scenarios. -/
def exWin : GameEntry := { won := true, attempts := 3, timestamp := 10, anonymous := false }

/-- Example lost record. -/
def exLoss : GameEntry := { won := false, attempts := 6, timestamp := 11, anonymous := false }

/-- Example store: two global users with one win each, one of them with an
extra loss. -/
def exHistory : HistoryData :=
  { guilds := [("g1", [("u1", [exWin]), ("u2", [exWin, exLoss])])]
    globalUsers := [("u1", [exWin]), ("u2", [exWin, exLoss])]
    anonGames := [] }

/-- Witness for C8's theorem: in the example store's global leaderboard, the
adjacent pair at positions 0 and 1 satisfies the order (u2 with 1 win from 2
games precedes u1 with 1 win from 1 game). -/
theorem get_leaderboard_sorted_witness :
    1 < (get_leaderboard exHistory "global" "g1").length ∧
    (((get_leaderboard exHistory "global" "g1").getD 1 lbDefault).wins <
       ((get_leaderboard exHistory "global" "g1").getD 0 lbDefault).wins ∨
     (((get_leaderboard exHistory "global" "g1").getD 0 lbDefault).wins =
        ((get_leaderboard exHistory "global" "g1").getD 1 lbDefault).wins ∧
      ((get_leaderboard exHistory "global" "g1").getD 1 lbDefault).total ≤
        ((get_leaderboard exHistory "global" "g1").getD 0 lbDefault).total)) :=
  ⟨by decide, get_leaderboard_sorted exHistory "global" "g1" 0 (by decide)⟩

/-! ## bot2.py `GameHistory.get_leaderboard` (lines 82-94) -/

/-- One stored game of bot2.py (no anonymous flag, no scopes). -/
structure GameEntry2 where
  won : Bool
  guessCount : Nat
  deriving DecidableEq, Repr

/-- Sort order of bot2.py `get_leaderboard`:
`sorted(..., key=lambda x: (-x["wins"], -x["win_rate"]))` — ties in wins are
broken by descending win rate, not by total games. -/
def lbRel2 (a b : LBEntry) : Prop :=
  b.wins < a.wins ∨ (a.wins = b.wins ∧ b.win_rate ≤ a.win_rate)

instance : DecidableRel lbRel2 := fun a b => by
  unfold lbRel2; infer_instance

instance : IsTotal LBEntry lbRel2 :=
  ⟨fun a b => by
    unfold lbRel2
    rcases Nat.lt_trichotomy a.wins b.wins with h | h | h
    · exact Or.inr (Or.inl h)
    · rcases le_total a.win_rate b.win_rate with h2 | h2
      · exact Or.inr (Or.inr ⟨h.symm, h2⟩)
      · exact Or.inl (Or.inr ⟨h, h2⟩)
    · exact Or.inl (Or.inl h)⟩

instance : IsTrans LBEntry lbRel2 :=
  ⟨fun a b c hab hbc => by
    unfold lbRel2 at *
    rcases hab with h1 | ⟨h1, h1r⟩ <;> rcases hbc with h2 | ⟨h2, h2r⟩
    · exact Or.inl (lt_trans h2 h1)
    · exact Or.inl (h2 ▸ h1)
    · exact Or.inl (h1 ▸ h2)
    · exact Or.inr ⟨h1.trans h2, le_trans h2r h1r⟩⟩

/-- bot2.py `GameHistory.get_leaderboard`: every user becomes a row (no
anonymous filter, no skipping), sorted by descending wins then descending
win rate. -/
def get_leaderboard2 (users : List (String × List GameEntry2)) : List LBEntry :=
  let rows := users.map (fun p =>
    { user_id := p.1
      wins := p.2.countP (fun g => g.won)
      total := p.2.length
      win_rate := if p.2.length > 0 then
          mkRat (p.2.countP (fun g => g.won)) p.2.length else 0
      avg_attempts := if p.2.length > 0 then
          mkRat ((p.2.map (fun g => g.guessCount)).sum) p.2.length else 0
      : LBEntry })
  List.insertionSort lbRel2 rows

/-- bot2 store: user 1 has 1 win in 5 games (win rate 1/5), user 2 has 1 win
in 2 games (win rate 1/2). -/
def exUsers2 : List (String × List GameEntry2) :=
  [("1", [⟨true, 3⟩, ⟨false, 6⟩, ⟨false, 6⟩, ⟨false, 6⟩, ⟨false, 6⟩]),
   ("2", [⟨true, 4⟩, ⟨false, 6⟩])]

/-- Counterexample to C8 as stated: bot2.py's leaderboard breaks win ties by
descending win rate, so user 2 (1 win, 2 games) precedes user 1 (1 win, 5
games) — the earlier of two adjacent rows has equal wins but strictly fewer
total games, violating the claimed descending-total tie-break. -/
theorem get_leaderboard2_claim_counterexample :
    (get_leaderboard2 exUsers2).length = 2 ∧
    ((get_leaderboard2 exUsers2).getD 0 lbDefault).wins =
      ((get_leaderboard2 exUsers2).getD 1 lbDefault).wins ∧
    ((get_leaderboard2 exUsers2).getD 0 lbDefault).total <
      ((get_leaderboard2 exUsers2).getD 1 lbDefault).total := by decide

/-! ## Daily challenge (bot.py `DailyChallenge`, lines 1743-1785) -/

/-- One daily-challenge participation entry
(`{"attempts": ..., "timestamp": ...}`); timestamps are abstract numbers
ordered like the ISO strings of the source. -/
structure Participant where
  attempts : Nat
  timestamp : Nat
  deriving DecidableEq, Repr

/-- bot.py `DailyChallenge.data`; dates are abstract numbers,
`none` is the initial "never updated" state. -/
structure DailyData where
  current_word : Option (List Char)
  last_updated : Option Nat
  participants : List (String × Participant)
  deriving DecidableEq, Repr

/-- bot.py `DailyChallenge.should_reset`:
`self.data["last_updated"] != datetime.now().date()`. -/
def should_reset (today : Nat) (d : DailyData) : Bool :=
  decide (d.last_updated ≠ some today)

/-- bot.py `DailyChallenge.get_daily_word`; `pick` stands for
`random.choice(WORDS)`. On a date change the word, the rollover date and the
participants are all replaced in the same call, before the word is returned. -/
def get_daily_word (today : Nat) (pick : List Char) (d : DailyData) :
    Option (List Char) × DailyData :=
  if should_reset today d then
    let d2 : DailyData :=
      { current_word := some pick, last_updated := some today, participants := [] }
    (d2.current_word, d2)
  else (d.current_word, d)

/-- Python `dict[key] = value`: overwrite in place, append when absent. -/
def setKey {α : Type} (k : String) (v : α) :
    List (String × α) → List (String × α)
  | [] => [(k, v)]
  | (k2, v2) :: rest =>
    if k2 = k then (k2, v) :: rest else (k2, v2) :: setKey k v rest

/-- bot.py `DailyChallenge.has_played`:
`str(user_id) in self.data["participants"]`. -/
def has_played (uid : String) (d : DailyData) : Bool :=
  (lookupKey uid d.participants).isSome

/-- bot.py `DailyChallenge.add_participant`: unconditional overwrite of the
player's entry with the new attempt count and timestamp. -/
def add_participant (uid : String) (attempts : Nat) (now : Nat)
    (d : DailyData) : DailyData :=
  { d with participants := setKey uid ⟨attempts, now⟩ d.participants }

/-- C5: on a date different from the stored rollover date, `get_daily_word`
replaces the word, empties the participants and sets the rollover date, all
in the same call, and returns the new word; on the same date it returns the
stored word and changes nothing; an immediate second call on the same date is
always a no-op, so the reset happens at most once per day and never
piecemeal. -/
theorem get_daily_word_spec (d : DailyData) (today : Nat) (pick : List Char) :
    (d.last_updated ≠ some today →
      get_daily_word today pick d =
        (some pick,
         { current_word := some pick, last_updated := some today,
           participants := [] })) ∧
    (d.last_updated = some today →
      get_daily_word today pick d = (d.current_word, d)) ∧
    (get_daily_word today pick (get_daily_word today pick d).2 =
      ((get_daily_word today pick d).2.current_word,
       (get_daily_word today pick d).2)) := by
  by_cases h : d.last_updated = some today
  · refine ⟨fun hne => absurd h hne, fun _ => ?_, ?_⟩
    · simp [get_daily_word, should_reset, h]
    · simp [get_daily_word, should_reset, h]
  · refine ⟨fun _ => ?_, fun he => absurd he h, ?_⟩
    · simp [get_daily_word, should_reset, h]
    · simp [get_daily_word, should_reset, h]

/-- Witness for C5: fresh state (never rolled over), day 7 — the call rotates
everything together, and calling again on day 7 changes nothing. -/
theorem get_daily_word_spec_witness :
    get_daily_word 7 ['m','a','n','g','o']
        { current_word := none, last_updated := none, participants := [] } =
      (some ['m','a','n','g','o'],
       { current_word := some ['m','a','n','g','o'], last_updated := some 7,
         participants := [] }) ∧
    get_daily_word 7 ['m','a','n','g','o']
        (get_daily_word 7 ['m','a','n','g','o']
          { current_word := none, last_updated := none, participants := [] }).2 =
      ((get_daily_word 7 ['m','a','n','g','o']
          { current_word := none, last_updated := none, participants := [] }).2.current_word,
       (get_daily_word 7 ['m','a','n','g','o']
          { current_word := none, last_updated := none, participants := [] }).2) :=
  ⟨(get_daily_word_spec
      { current_word := none, last_updated := none, participants := [] }
      7 ['m','a','n','g','o']).1 (by decide),
   (get_daily_word_spec
      { current_word := none, last_updated := none, participants := [] }
      7 ['m','a','n','g','o']).2.2⟩

/-- bot.py `WordleCog.handle_end_game`, lines 1175-1182: the daily-recording
tail of ending a game. When the ended game was a daily game, the player is
recorded; then, whenever the game's secret equals today's word (fetching it
through `get_daily_word`), the player is recorded again — with no
`has_played` gate anywhere. `t1`/`t2` are the two `datetime.now()` stamps. -/
def end_game_daily (isDaily : Bool) (uid : String) (attempts : Nat)
    (secret : List Char) (today : Nat) (pick : List Char) (t1 t2 : Nat)
    (d : DailyData) : DailyData :=
  let d1 := if isDaily then add_participant uid attempts t1 d else d
  let r := get_daily_word today pick d1
  if some secret = r.1 then add_participant uid attempts t2 r.2 else r.2

/-- C6 failing run: bot.py records daily participation without consulting
`has_played`. A player already recorded today (entry (3,100)) who finishes a
normal game whose secret happens to equal today's word gets overwritten to
(5,201); and ending a single daily game writes the entry twice, the second
write (timestamp 301) overwriting the first (timestamp 300). -/
theorem end_game_daily_overwrites :
    has_played "7"
      { current_word := some ['a','p','p','l','e'], last_updated := some 7,
        participants := [("7", ⟨3, 100⟩)] } = true ∧
    (end_game_daily false "7" 5 ['a','p','p','l','e'] 7 ['m','a','n','g','o'] 200 201
      { current_word := some ['a','p','p','l','e'], last_updated := some 7,
        participants := [("7", ⟨3, 100⟩)] }).participants = [("7", ⟨5, 201⟩)] ∧
    (end_game_daily true "9" 4 ['a','p','p','l','e'] 7 ['m','a','n','g','o'] 300 301
      { current_word := some ['a','p','p','l','e'], last_updated := some 7,
        participants := [] }).participants = [("9", ⟨4, 301⟩)] := by decide

/-- Ranking order of the daily leaderboard: ascending attempt count, ties
broken by ascending timestamp. -/
def dailyRel (a b : String × Participant) : Prop :=
  a.2.attempts < b.2.attempts ∨
    (a.2.attempts = b.2.attempts ∧ a.2.timestamp ≤ b.2.timestamp)

instance : DecidableRel dailyRel := fun a b => by
  unfold dailyRel; infer_instance

instance : IsTotal (String × Participant) dailyRel :=
  ⟨fun a b => by unfold dailyRel; omega⟩

instance : IsTrans (String × Participant) dailyRel :=
  ⟨fun a b c hab hbc => by unfold dailyRel at *; omega⟩

/-- Modelled from the spec: `DailyChallenge.get_leaderboard` is missing from
src/bot.py — only its callers exist (`WordleCog.get_daily_rank` and the daily
leaderboard commands iterate its `(user_id, data)` pairs). The spec defines
the ranking as ascending attemptCount, tie-broken by ascending timestamp. -/
def daily_get_leaderboard (parts : List (String × Participant)) :
    List (String × Participant) :=
  List.insertionSort dailyRel parts

/-- Default entry used only as the default of list indexing. -/
def dailyDefault : String × Participant := ("", ⟨0, 0⟩)

/-- C7: in the daily leaderboard, a participant with strictly fewer attempts,
or equal attempts and a strictly earlier timestamp, is placed strictly before
the other. -/
theorem daily_leaderboard_order (parts : List (String × Participant))
    (i j : Nat)
    (hi : i < (daily_get_leaderboard parts).length)
    (hj : j < (daily_get_leaderboard parts).length)
    (h : ((daily_get_leaderboard parts).getD i dailyDefault).2.attempts <
           ((daily_get_leaderboard parts).getD j dailyDefault).2.attempts ∨
         (((daily_get_leaderboard parts).getD i dailyDefault).2.attempts =
            ((daily_get_leaderboard parts).getD j dailyDefault).2.attempts ∧
          ((daily_get_leaderboard parts).getD i dailyDefault).2.timestamp <
            ((daily_get_leaderboard parts).getD j dailyDefault).2.timestamp)) :
    i < j := by
  have hs : List.Sorted dailyRel (daily_get_leaderboard parts) := by
    rw [daily_get_leaderboard]
    exact List.sorted_insertionSort dailyRel parts
  rw [getD_of_lt _ _ _ hi, getD_of_lt _ _ _ hj] at h
  by_contra hij
  push_neg at hij
  rcases Nat.eq_or_lt_of_le hij with heq | hlt
  · subst heq
    have hfin : (⟨j, hj⟩ : Fin (daily_get_leaderboard parts).length) = ⟨j, hi⟩ := rfl
    rw [hfin] at h
    omega
  · have hrel := hs.rel_get_of_lt
      (a := ⟨j, hj⟩) (b := ⟨i, hi⟩) (Fin.mk_lt_mk.mpr hlt)
    unfold dailyRel at hrel
    omega

/-- Witness for C7: three participants; the sorted board is
(c: 2 attempts at time 4), (b: 2 attempts at time 9), (a: 3 attempts), and the
theorem places c (fewer-or-earlier) before b. -/
theorem daily_leaderboard_order_witness :
    daily_get_leaderboard [("a", ⟨3, 5⟩), ("b", ⟨2, 9⟩), ("c", ⟨2, 4⟩)] =
      [("c", ⟨2, 4⟩), ("b", ⟨2, 9⟩), ("a", ⟨3, 5⟩)] ∧ (0 : Nat) < 1 :=
  ⟨by decide,
   daily_leaderboard_order [("a", ⟨3, 5⟩), ("b", ⟨2, 9⟩), ("c", ⟨2, 4⟩)]
     0 1 (by decide) (by decide) (by decide)⟩

/-! ## Achievements (bot.py `AchievementSystem`, lines 1688-1740) -/

/-- Python cross-type equality between a list and an integer is always False;
bot.py's perfectionist condition `lambda game: game.attempts == 1` compares
the attempts list itself (not its length) with the number 1. -/
def pyListEqNat {α : Type} (_xs : List α) (_n : Nat) : Bool := false

/-- Achievement table order of bot.py `AchievementSystem.ACHIEVEMENTS`. -/
def achIds : List String := ["speedster", "perfectionist", "hint_hater", "veteran"]

/-- The condition lambdas of bot.py `ACHIEVEMENTS`; none of them checks
whether the game was won. -/
def achCondition (id : String) (g : WordleGame) (duration : ℚ)
    (totalGames : Nat) : Bool :=
  if id = "speedster" then decide (duration < 30)
  else if id = "perfectionist" then pyListEqNat g.attempts 1
  else if id = "hint_hater" then g.hints_used == 0
  else if id = "veteran" then decide (totalGames ≥ 100)
  else false

/-- bot.py `AchievementSystem.check_achievements`: walk the table in order;
an id already present in the player's record is skipped, otherwise a true
condition stores the first-unlock timestamp and reports the id as newly
unlocked. -/
def check_achievements (ach : List (String × Nat)) (g : WordleGame)
    (duration : ℚ) (totalGames : Nat) (now : Nat) :
    List (String × Nat) × List String :=
  achIds.foldl (fun st id =>
    if (lookupKey id st.1).isNone then
      if achCondition id g duration totalGames then
        (setKey id now st.1, st.2 ++ [id])
      else st
    else st) (ach, [])

/-- Game state after winning on the very first guess. -/
def wonFirstTry : WordleGame :=
  { secret_word := ['a','p','p','l','e']
    attempts := [(['a','p','p','l','e'],
      [LetterResult.correct, LetterResult.correct, LetterResult.correct,
       LetterResult.correct, LetterResult.correct])]
    remaining := 5
    hints_used := 0
    correct_positions := [true, true, true, true, true]
    hinted_letters := [] }

theorem check_achievements_foldl_mem (g : WordleGame) (duration : ℚ)
    (totalGames : Nat) (now : Nat) (x : String) :
    ∀ (ids : List String) (st : List (String × Nat) × List String),
      x ∈ (ids.foldl (fun st id =>
        if (lookupKey id st.1).isNone then
          if achCondition id g duration totalGames then
            (setKey id now st.1, st.2 ++ [id])
          else st
        else st) st).2 →
      x ∈ st.2 ∨ (x ∈ ids ∧ achCondition x g duration totalGames = true) := by
  intro ids
  induction ids with
  | nil => intro st h; exact Or.inl h
  | cons a ids ih =>
    intro st h
    rw [List.foldl_cons] at h
    rcases ih _ h with hmem | ⟨hin, hcond⟩
    · by_cases h1 : (lookupKey a st.1).isNone = true
      · by_cases h2 : achCondition a g duration totalGames = true
        · rw [if_pos h1, if_pos h2] at hmem
          simp only [List.mem_append, List.mem_singleton] at hmem
          rcases hmem with h3 | h3
          · exact Or.inl h3
          · subst h3; exact Or.inr ⟨List.mem_cons_self _ _, h2⟩
        · rw [if_pos h1, if_neg h2] at hmem; exact Or.inl hmem
      · rw [if_neg h1] at hmem; exact Or.inl hmem
    · exact Or.inr ⟨List.mem_cons_of_mem a hin, hcond⟩

/-- C9 failing run: bot.py never unlocks the perfectionist achievement. Its
condition compares the attempts list with the integer 1, which is always
False in Python, so even a game won in exactly 1 attempt with an empty
achievement record (concrete conjuncts) — indeed any evaluation whatsoever
(last conjunct) — does not return perfectionist as newly unlocked. -/
theorem perfectionist_never_unlocked :
    wonFirstTry.attempts.length = 1 ∧
    (lookupKey "perfectionist" ([] : List (String × Nat))).isNone = true ∧
    "perfectionist" ∉ (check_achievements [] wonFirstTry (mkRat 45 1) 1 999).2 ∧
    ∀ (ach : List (String × Nat)) (g : WordleGame) (duration : ℚ)
      (totalGames : Nat) (now : Nat),
      "perfectionist" ∉ (check_achievements ach g duration totalGames now).2 := by
  refine ⟨by decide, by decide, by decide, ?_⟩
  intro ach g duration totalGames now hmem
  rcases check_achievements_foldl_mem g duration totalGames now "perfectionist"
      achIds (ach, []) hmem with h | ⟨_, hcond⟩
  · simp at h
  · have : achCondition "perfectionist" g duration totalGames = false := rfl
    rw [this] at hcond
    exact Bool.false_ne_true hcond

end Wordle
